import Mathlib

/-!
Verification of the object-storage transfer layer of DANE-util
(dane/s3_util.py): path-to-key mapping, archive construction, prefix
clearing, upload and download orchestration, and S3 URI handling.

Python strings are sequences of Unicode code points, so they are modelled
as lists of characters (`Str`); Python slices and splits translate
directly to list operations.  The local filesystem is modelled as a tree
(`FSNode`); a file-list entry of the Python code is modelled as the pair
of its path and the tree node that path denotes.  The boto3 client is
modelled by oracles: the successive listing responses a loop receives, and
the success of the n-th upload / download call; the side effects of a call
are recorded as an event trace.
-/

/-- A Python string: a sequence of characters. -/
abbrev Str := List Char

/-- Helper to write `Str` literals. -/
def str (s : String) : Str := s.toList

/-- Python `s.split(sep)` for a one-character separator `sep`:
splitting the empty string yields one empty group. -/
def splitChar (c : Char) : Str → List Str
  | [] => [[]]
  | x :: xs =>
      match splitChar c xs with
      | g :: gs => if x = c then [] :: g :: gs else (x :: g) :: gs
      | [] => [[]]

/-- Model of os.path.basename for slash-separated paths (also what
`ntpath.basename` computes on paths without backslashes or drive
letters): the part after the last separator. -/
def basename (p : Str) : Str := (splitChar '/' p).getLastD []

/-- Binary `os.path.join` (posix): an absolute second component replaces
the first; otherwise the components are joined with a single slash. -/
def pjoin (a b : Str) : Str :=
  if b.head? = some '/' then b
  else if a = [] ∨ a.getLast? = some '/' then a ++ b
  else a ++ '/' :: b

/-- Model of os.path.splitext on a basename: the extension starts at the last
dot, provided some character of the name precedes that dot beyond the
leading dots. -/
def splitext (name : Str) : Str × Str :=
  let lead := (name.takeWhile (fun ch => ch = '.')).length
  match (name.reverse.findIdx? (fun ch => ch = '.')).map
      (fun j => name.length - 1 - j) with
  | some i => if lead ≤ i then (name.take i, name.drop i) else (name, [])
  | none => (name, [])

/-- Model of generate_asset_id_from_input_file (s3_util.py): the basename of the
input file, with the extension cut off unless `with_extension`. -/
def generate_asset_id_from_input_file (input_file : Str)
    (with_extension : Bool) : Str :=
  let file_name := basename input_file
  if with_extension then file_name
  else (splitext file_name).1

example : splitChar '/' (str "a/b") = [str "a", str "b"] := by decide
example : splitChar '/' (str "") = [[]] := by decide
example : splitChar '/' (str "bucket/") = [str "bucket", []] := by decide
example : basename (str "x/y/z.txt") = str "z.txt" := by decide
example : pjoin (str "p") (str "q") = str "p/q" := by decide
example : pjoin (str "") (str "q") = str "q" := by decide
example : generate_asset_id_from_input_file (str "a/b/c.tar.gz") true
    = str "c.tar.gz" := by decide
example : generate_asset_id_from_input_file (str "a/b/c.txt") false
    = str "c" := by decide

/-! ## Local filesystem model -/

/-- A node of the local filesystem: a regular file or a directory whose
children (name, node) appear in `os.listdir` order. -/
inductive FSNode where
  | file : FSNode
  | dir : List (Str × FSNode) → FSNode

/-- Whether a node is a directory (`os.path.isdir`). -/
def isDirNode : FSNode → Bool
  | FSNode.file => false
  | FSNode.dir _ => true

mutual
/-- Number of nodes of a filesystem tree. -/
def nodeSize : FSNode → Nat
  | FSNode.file => 1
  | FSNode.dir cs => 1 + entsSize cs

/-- Total node count of a list of named entries; path components are
ignored, so renaming or permuting entries preserves it. -/
def entsSize : List (Str × FSNode) → Nat
  | [] => 0
  | (_, nd) :: rest => nodeSize nd + entsSize rest
end

theorem nodeSize_pos (nd : FSNode) : 0 < nodeSize nd := by
  cases nd <;> simp [nodeSize]

theorem entsSize_append (l₁ l₂ : List (Str × FSNode)) :
    entsSize (l₁ ++ l₂) = entsSize l₁ + entsSize l₂ := by
  induction l₁ with
  | nil => simp [entsSize]
  | cons e rest ih =>
      obtain ⟨n, nd⟩ := e
      simp [entsSize, ih, Nat.add_assoc]

theorem entsSize_map_rename (g : Str → Str) (l : List (Str × FSNode)) :
    entsSize (l.map (fun e => (g e.1, e.2))) = entsSize l := by
  induction l with
  | nil => simp
  | cons e rest ih =>
      obtain ⟨n, nd⟩ := e
      simp [entsSize, ih]

theorem nodeSize_le_of_mem {e : Str × FSNode} {l : List (Str × FSNode)}
    (h : e ∈ l) : nodeSize e.2 ≤ entsSize l := by
  induction l with
  | nil => cases h
  | cons a rest ih =>
      obtain ⟨n, nd⟩ := a
      rcases List.mem_cons.mp h with h' | h'
      · subst h'; simp [entsSize]
      · have := ih h'
        simp [entsSize]
        omega

theorem entsSize_filter_partition (p : Str × FSNode → Bool)
    (l : List (Str × FSNode)) :
    entsSize (l.filter p) + entsSize (l.filter (fun e => !p e)) =
      entsSize l := by
  induction l with
  | nil => simp [entsSize]
  | cons a rest ih =>
      obtain ⟨n, nd⟩ := a
      by_cases hp : p (n, nd) <;>
        simp [List.filter_cons, hp, entsSize] <;> omega

/-- Model of os.walk at root on a directory with children `cs`: yields the entry
for `root` itself, then, top-down and in listdir order, the entries of
every descendant directory.  Each entry pairs the path of a directory
and its children. -/
def walkEntries (root : Str) (cs : List (Str × FSNode)) :
    List (Str × List (Str × FSNode)) :=
  (root, cs) ::
    (cs.attach.map (fun e =>
      match e with
      | ⟨(n, FSNode.dir cs2), _⟩ => walkEntries (pjoin root n) cs2
      | ⟨(_, FSNode.file), _⟩ => [])).flatten
termination_by entsSize cs
decreasing_by
  rename_i h
  have hle := nodeSize_le_of_mem h
  simp [nodeSize] at hle
  omega

theorem walkEntries_mem_entsSize :
    ∀ (n : Nat) (root : Str) (cs : List (Str × FSNode)), entsSize cs ≤ n →
      ∀ {x : Str × List (Str × FSNode)}, x ∈ walkEntries root cs →
        entsSize x.2 ≤ entsSize cs := by
  intro n
  induction n with
  | zero =>
      intro root cs hle x hmem
      cases cs with
      | nil =>
          rw [walkEntries] at hmem
          simp at hmem
          simp [hmem]
      | cons a rest =>
          exfalso
          obtain ⟨an, nd⟩ := a
          have hpos := nodeSize_pos nd
          simp [entsSize] at hle
          omega
  | succ n ih =>
      intro root cs hle x hmem
      rw [walkEntries] at hmem
      rcases List.mem_cons.mp hmem with he | he
      · simp [he]
      · obtain ⟨l, hl, hmem2⟩ := List.mem_flatten.mp he
        obtain ⟨e, _, rfl⟩ := List.mem_map.mp hl
        obtain ⟨⟨nm, nd⟩, hmem3⟩ := e
        cases nd with
        | file => simp at hmem2
        | dir cs2 =>
            simp only at hmem2
            have hsz : nodeSize (FSNode.dir cs2) ≤ entsSize cs :=
              nodeSize_le_of_mem hmem3
            simp [nodeSize] at hsz
            have h2 : entsSize cs2 ≤ n := by omega
            have h3 := ih (pjoin root nm) cs2 h2 hmem2
            omega

theorem walkEntries_entsSize_le {root : Str} {cs : List (Str × FSNode)}
    {x : Str × List (Str × FSNode)} (h : x ∈ walkEntries root cs) :
    entsSize x.2 ≤ entsSize cs :=
  walkEntries_mem_entsSize (entsSize cs) root cs le_rfl h

/-- The sub-file-list the code builds for one walk entry:
`[os.path.join(root, fn) for fn in dirs + files]` — directory names
first, then file names, each with the node its path denotes attached. -/
def walkChildren (root : Str) (entries : List (Str × FSNode)) :
    List (Str × FSNode) :=
  ((entries.filter (fun e => isDirNode e.2)) ++
    (entries.filter (fun e => !isDirNode e.2))).map
    (fun e => (pjoin root e.1, e.2))

theorem entsSize_walkChildren (root : Str) (es : List (Str × FSNode)) :
    entsSize (walkChildren root es) = entsSize es := by
  rw [walkChildren, entsSize_map_rename, entsSize_append,
    entsSize_filter_partition]

/-- The `else` branch of `digest_file_list` (no archive): for each entry,
a regular file contributes `(f, os.path.join(prefix, basename f))`; for a
directory the code iterates over `os.walk(f)` and recursively digests
the joined child paths of each walk entry under the extended prefix
`os.path.join(prefix, basename f)`. -/
def digestNoTar : List (Str × FSNode) → Str → List (Str × Str)
  | [], _ => []
  | (f, FSNode.file) :: rest, pfx =>
      (f, pjoin pfx (basename f)) :: digestNoTar rest pfx
  | (f, FSNode.dir cs) :: rest, pfx =>
      ((walkEntries f cs).attach.map (fun w =>
          digestNoTar (walkChildren w.1.1 w.1.2)
            (pjoin pfx (basename f)))).flatten
        ++ digestNoTar rest pfx
termination_by lst _ => entsSize lst
decreasing_by
  · simp only [entsSize, nodeSize]
    omega
  · have h1 := walkEntries_entsSize_le w.2
    rw [entsSize_walkChildren]
    simp only [entsSize, nodeSize]
    omega
  · simp only [entsSize, nodeSize]
    omega

theorem walkEntries_eq (root : Str) (cs : List (Str × FSNode)) :
    walkEntries root cs =
      (root, cs) ::
        (cs.map (fun e =>
          match e.2 with
          | FSNode.dir cs2 => walkEntries (pjoin root e.1) cs2
          | FSNode.file => [])).flatten := by
  rw [walkEntries]
  congr 1
  have h : (fun (e : {x // x ∈ cs}) =>
      match e with
      | ⟨(n, FSNode.dir cs2), _⟩ => walkEntries (pjoin root n) cs2
      | ⟨(_, FSNode.file), _⟩ => []) =
      (fun (e : {x // x ∈ cs}) =>
        (fun (x : Str × FSNode) =>
          match x.2 with
          | FSNode.dir cs2 => walkEntries (pjoin root x.1) cs2
          | FSNode.file => []) e.1) := by
    funext e
    obtain ⟨⟨n, nd⟩, hp⟩ := e
    cases nd <;> rfl
  rw [h]
  exact congrArg List.flatten (List.attach_map_val cs
    (fun (x : Str × FSNode) =>
      match x.2 with
      | FSNode.dir cs2 => walkEntries (pjoin root x.1) cs2
      | FSNode.file => []))

theorem digestNoTar_nil (pfx : Str) : digestNoTar [] pfx = [] := by
  simp [digestNoTar]

theorem digestNoTar_file (f : Str) (rest : List (Str × FSNode))
    (pfx : Str) :
    digestNoTar ((f, FSNode.file) :: rest) pfx =
      (f, pjoin pfx (basename f)) :: digestNoTar rest pfx := by
  simp [digestNoTar]

theorem digestNoTar_dir (f : Str) (cs : List (Str × FSNode))
    (rest : List (Str × FSNode)) (pfx : Str) :
    digestNoTar ((f, FSNode.dir cs) :: rest) pfx =
      ((walkEntries f cs).map (fun w =>
        digestNoTar (walkChildren w.1 w.2) (pjoin pfx (basename f)))).flatten
      ++ digestNoTar rest pfx := by
  rw [digestNoTar]
  congr 1
  have h : (fun (w : {x // x ∈ walkEntries f cs}) =>
      digestNoTar (walkChildren w.1.1 w.1.2) (pjoin pfx (basename f))) =
      (fun (w : {x // x ∈ walkEntries f cs}) =>
        (fun (x : Str × List (Str × FSNode)) =>
          digestNoTar (walkChildren x.1 x.2) (pjoin pfx (basename f)))
          w.1) := rfl
  rw [h]
  exact congrArg List.flatten (List.attach_map_val (walkEntries f cs)
    (fun (x : Str × List (Str × FSNode)) =>
      digestNoTar (walkChildren x.1 x.2) (pjoin pfx (basename f))))

/-- Evaluation of the recursive digest at a depth-two directory `d`
holding a file `a` and a sub-directory `s` with a file `b`: the file
`d/s/b` is emitted twice — once through the recursive isdir branch with
the structure-preserving key `p/d/s/b`, and once more through the outer
`os.walk` iteration, under the non-extended prefix, with key `p/d/b`. -/
theorem digestNoTar_nested_example :
    digestNoTar [(str "d", FSNode.dir [(str "a", FSNode.file),
      (str "s", FSNode.dir [(str "b", FSNode.file)])])] (str "p") =
    [(str "d/s/b", str "p/d/s/b"), (str "d/a", str "p/d/a"),
     (str "d/s/b", str "p/d/b")] := by
  have hp1 : pjoin (str "d") (str "s") = str "d/s" := by decide
  have h1 : walkEntries (str "d/s") [(str "b", FSNode.file)] =
      [(str "d/s", [(str "b", FSNode.file)])] := by
    rw [walkEntries_eq]
    rfl
  have h2 : walkEntries (str "d") [(str "a", FSNode.file),
      (str "s", FSNode.dir [(str "b", FSNode.file)])] =
      [(str "d", [(str "a", FSNode.file),
        (str "s", FSNode.dir [(str "b", FSNode.file)])]),
       (str "d/s", [(str "b", FSNode.file)])] := by
    rw [walkEntries_eq]
    simp only [List.map_cons, List.map_nil]
    rw [hp1, h1]
    rfl
  have hwc1 : walkChildren (str "d") [(str "a", FSNode.file),
      (str "s", FSNode.dir [(str "b", FSNode.file)])] =
      [(str "d/s", FSNode.dir [(str "b", FSNode.file)]),
       (str "d/a", FSNode.file)] := rfl
  have hwc2 : walkChildren (str "d/s") [(str "b", FSNode.file)] =
      [(str "d/s/b", FSNode.file)] := rfl
  simp only [digestNoTar_dir, h2, h1, hwc1, hwc2, digestNoTar_file,
    digestNoTar_nil, List.map_cons, List.map_nil]
  decide

/-! ## Archiver model -/

/-- Outcome of the tar-creation block: success, or one of the caught
exception classes (tarfile.TarError, FileNotFoundError, anything else). -/
inductive TarOutcome where
  | ok : TarOutcome
  | tarError : TarOutcome
  | fileNotFound : TarOutcome
  | otherError : TarOutcome
deriving DecidableEq, Repr

/-- Oracle for the local environment of an archive operation:
`os.path.exists` and the result of the tar-writing block. -/
structure ArchiveEnv where
  pathExists : Str → Bool
  tarOutcome : TarOutcome

/-- Model of the pathlib parent of p, for relative and plain absolute slash paths: all
components but the last, or the current directory when there is no
separator. -/
def parentPath (p : Str) : Str :=
  let gs := splitChar '/' p
  if gs.length ≤ 1 then str "." else List.intercalate (str "/") gs.dropLast

/-- The constant COMPRESSED_TAR_EXTENSION (s3_util.py). -/
def COMPRESSED_TAR_EXTENSION : Str := str ".tar.gz"

/-- Model of is_valid_tar_path (s3_util.py): the parent directory must exist and
`archive_path[-7:]` must equal the fixed extension. -/
def is_valid_tar_path (env : ArchiveEnv) (archive_path : Str) : Bool :=
  if !env.pathExists (parentPath archive_path) then false
  else if archive_path.drop (archive_path.length - 7)
      ≠ COMPRESSED_TAR_EXTENSION then false
  else true

/-- Model of tar_list_of_files (s3_util.py): false on an invalid path; then the
tar block runs, every caught exception class yields false, success true.
No exception escapes. -/
def tar_list_of_files (env : ArchiveEnv) (archive_path : Str)
    (file_list : List Str) : Bool :=
  if !is_valid_tar_path env archive_path then false
  else
    match env.tarOutcome with
    | TarOutcome.ok => true
    | TarOutcome.tarError => false
    | TarOutcome.fileNotFound => false
    | TarOutcome.otherError => false

/-- Model of digest_file_list (s3_util.py).  A non-empty `tar_archive_path`
selects the archive branch: on archiver failure the function raises
(modelled as `Except.error`); on success it returns the singleton pair.
Otherwise the file list is digested recursively. -/
def digest_file_list (env : ArchiveEnv) (file_list : List (Str × FSNode))
    (pfx : Str) (tar_archive_path : Str) : Except Str (List (Str × Str)) :=
  if tar_archive_path ≠ [] then
    if tar_list_of_files env tar_archive_path
        (file_list.map (fun e => e.1)) then
      Except.ok [(tar_archive_path,
        pjoin pfx (generate_asset_id_from_input_file tar_archive_path true))]
    else Except.error (str "Could not digest file list: archive error")
  else Except.ok (digestNoTar file_list pfx)

/-! ## Remote store model -/

/-- Observable side effect of one boto3 client call (or of
`os.makedirs`). -/
inductive S3Event where
  | listCall : Str → Str → Option Str → S3Event
  | deleteCall : Str → List Str → S3Event
  | putCall : Str → Str → Str → S3Event
  | getCall : Str → Str → Str → S3Event
  | makeDirs : Str → S3Event
deriving DecidableEq, Repr

/-- An exception escaping a modelled call: the KeyError a missing
response key raises, the IndexError of an empty-sequence subscript, the
client-side botocore ParamValidationError, or a plain Exception with its
message. -/
inductive PyErr where
  | keyError : Str → PyErr
  | indexError : PyErr
  | paramValidationError : PyErr
  | exception : Str → PyErr
deriving DecidableEq, Repr

/-- One response of a listing call, as the dictionary boto3 hands back:
the Contents key is ABSENT (none) when the page holds no objects — S3
omits it rather than returning an empty list — plus the truncation flag
and, for list_objects_v2 responses, the KeyCount field (ignored by the
v1 calls of the clearing loop). -/
structure S3ListResponse where
  contents : Option (List Str)
  isTruncated : Bool
  keyCount : Nat
deriving DecidableEq, Repr

/-- The response of a listing that matches nothing: Contents absent,
untruncated, zero KeyCount; also the fallback answer of an exhausted
oracle. -/
def emptyListing : S3ListResponse :=
  { contents := none, isTruncated := false, keyCount := 0 }

/-- The pagination loop of the clearing method (the while True at
s3_util.py:189-195): read Contents of the current response — a response
without it raises KeyError — accumulate its keys, stop when the page is
untruncated, else issue another v1 listing call whose marker is the last
key of the page (an empty Contents list makes that subscript raise
IndexError) and continue on the next oracle response; an exhausted
oracle answers with an empty untruncated page.  Returns the extra
listing-call events and either the accumulated keys or the escaping
exception. -/
def clearPages (bucket pfx : Str) :
    S3ListResponse → List S3ListResponse →
      List S3Event × Except PyErr (List Str)
  | r, rest =>
    match r.contents with
    | none => ([], Except.error (PyErr.keyError (str "Contents")))
    | some ks =>
      if r.isTruncated then
        match ks.getLast? with
        | none => ([], Except.error PyErr.indexError)
        | some mk =>
          match rest with
          | [] => ([S3Event.listCall bucket pfx (some mk)], Except.ok ks)
          | next :: more =>
              let p := clearPages bucket pfx next more
              (S3Event.listCall bucket pfx (some mk) :: p.1,
                p.2.map (fun rest2 => ks ++ rest2))
      else ([], Except.ok ks)

/-- Model of the method clear_prefix of S3Store (s3_util.py): list the
given prefix and read the Contents key of the response — when the store
holds no matching object the key is absent and the subscript at
s3_util.py:186 raises KeyError (the code has no handler; its final line
is a TODO about adding one).  When Contents holds at least one key,
gather all keys across pages and batch-delete them; when it is present
but empty, do nothing further.  Returns the recorded events and either
unit or the escaping exception. -/
def clear_prefix (pages : List S3ListResponse) (bucket pfx : Str) :
    List S3Event × Except PyErr Unit :=
  let r := pages.headD emptyListing
  let ev0 := S3Event.listCall bucket pfx none
  match r.contents with
  | none => ([ev0], Except.error (PyErr.keyError (str "Contents")))
  | some ks =>
    if ks.length > 0 then
      let p := clearPages bucket pfx r (pages.drop 1)
      match p.2 with
      | Except.error e => (ev0 :: p.1, Except.error e)
      | Except.ok keys =>
          (ev0 :: p.1 ++ [S3Event.deleteCall bucket keys], Except.ok ())
    else ([ev0], Except.ok ())

/-- The upload loop of `S3Store.transfer_to_s3`: upload the pairs in
order; `putOk n` tells whether the n-th `upload_file` call succeeds; the
first failure is logged and the loop returns false at once.  Returns the
result and the attempted put events. -/
def uploadLoop (putOk : Nat → Bool) (bucket : Str) :
    List (Str × Str) → Nat → Bool × List S3Event
  | [], _ => (true, [])
  | (f, k) :: rest, n =>
      if putOk n then
        let p := uploadLoop putOk bucket rest (n + 1)
        (p.1, S3Event.putCall bucket f k :: p.2)
      else (false, [S3Event.putCall bucket f k])

/-- Model of the method transfer_to_s3 of S3Store (s3_util.py): clear
the prefix — an exception escaping the unguarded clear call at
s3_util.py:212 propagates — then digest the file list (a digest
exception propagates too), then upload every pair.  Returns the recorded
events and either the boolean result or the escaping exception. -/
def transfer_to_s3 (pages : List S3ListResponse) (putOk : Nat → Bool)
    (env : ArchiveEnv) (bucket pfx : Str)
    (file_list : List (Str × FSNode)) (tar_archive_path : Str) :
    List S3Event × Except PyErr Bool :=
  let c := clear_prefix pages bucket pfx
  match c.2 with
  | Except.error e => (c.1, Except.error e)
  | Except.ok _ =>
    match digest_file_list env file_list pfx tar_archive_path with
    | Except.error e => (c.1, Except.error (PyErr.exception e))
    | Except.ok pairs =>
        let p := uploadLoop putOk bucket pairs 0
        (c.1 ++ p.2, Except.ok p.1)

/-! ## URI handling and download orchestration -/

/-- Model of validate_s3_uri (s3_util.py): the first five characters must be the
scheme literal, and splitting the remainder on the separator must yield
at least two parts. -/
def validate_s3_uri (s3_uri : Str) : Bool :=
  if s3_uri.take 5 ≠ str "s3://" then false
  else if (splitChar '/' (s3_uri.drop 5)).length < 2 then false
  else true

/-- Model of parse_s3_uri (s3_util.py): the bucket is the remainder up to the
first separator (Python `tmp[:tmp.find("/")]` drops the final character
when no separator occurs, since `find` returns -1); the object name is
everything after bucket and scheme. -/
def parse_s3_uri (s3_uri : Str) : Str × Str :=
  let tmp := s3_uri.drop 5
  let bucket :=
    match tmp.findIdx? (fun ch => ch = '/') with
    | some i => tmp.take i
    | none => tmp.dropLast
  (bucket, s3_uri.drop (bucket.length + 6))

/-- The returned record of a download call: the overall success flag and
the target path (elapsed wall-clock time is not modelled). -/
structure DownloadResult where
  success : Bool
  file_path : Str
deriving DecidableEq, Repr

/-- Oracle for a download call: `os.path.exists`, the successive listing
responses, and the outcome of the n-th `download_fileobj` call. -/
structure DownloadEnv where
  pathExists : Str → Bool
  pages : List S3ListResponse
  getOk : Nat → Bool

/-- The directory into which a listed key is downloaded:
`os.path.join(output_path, *splitpath[2:-1])`. -/
def downloadLocation (output_path key : Str) : Str :=
  List.foldl pjoin output_path ((splitChar '/' key).drop 2).dropLast

/-- The file a listed key is downloaded to:
`os.path.join(location, splitpath[-1])`. -/
def downloadTarget (output_path key : Str) : Str :=
  pjoin (downloadLocation output_path key)
    ((splitChar '/' key).getLastD [])

/-- The per-key loop of `S3Store.download_file`: create the missing local
directory, attempt the download (`getOk n` is the outcome of the n-th call); a
failure flips the overall flag but the loop continues with the remaining
keys. -/
def downloadItems (env : DownloadEnv) (bucket output_path : Str) :
    List Str → Nat → Bool × List S3Event
  | [], _ => (true, [])
  | key :: rest, n =>
      let location := downloadLocation output_path key
      let mkEvs :=
        if env.pathExists location then []
        else [S3Event.makeDirs location]
      let p := downloadItems env bucket output_path rest (n + 1)
      (env.getOk n && p.1,
        mkEvs ++ S3Event.getCall bucket key (downloadTarget output_path key)
          :: p.2)

/-- Model of the method download_file of S3Store (s3_util.py): create
the output folder when missing; a `tar.gz` object name is downloaded
directly to `output_folder/basename(object_name)` inside the try, so
that branch never raises.  Otherwise the object name is treated as a
prefix: a zero KeyCount fails cleanly; else the gathering loop reads the
Contents key of the response (absent Contents raises KeyError) and, on a
truncated page, evaluates the marker — the last element of Contents, an
IndexError when that list is empty — and then calls
list_objects_v2(..., Marker=...) at s3_util.py:263-267.  Marker is not a
parameter of ListObjectsV2, so botocore raises ParamValidationError
outside the try before any download: the per-key loop is reached only
when the first page is untruncated.  Returns the recorded events and
either the DownloadResult or the escaping exception. -/
def download_file (env : DownloadEnv) (bucket object_name output_folder : Str) :
    List S3Event × Except PyErr DownloadResult :=
  let mkEvs :=
    if env.pathExists output_folder then []
    else [S3Event.makeDirs output_folder]
  let output_path := pjoin output_folder (basename object_name)
  if str "tar.gz" <:+: object_name then
    (mkEvs ++ [S3Event.getCall bucket object_name output_path],
      Except.ok { success := env.getOk 0, file_path := output_path })
  else
    let r0 := env.pages.headD emptyListing
    let ev0 := S3Event.listCall bucket object_name none
    if r0.keyCount = 0 then
      (mkEvs ++ [ev0],
        Except.ok { success := false, file_path := output_path })
    else
      match r0.contents with
      | none =>
          (mkEvs ++ [ev0], Except.error (PyErr.keyError (str "Contents")))
      | some ks =>
        if r0.isTruncated then
          match ks.getLast? with
          | none => (mkEvs ++ [ev0], Except.error PyErr.indexError)
          | some _ =>
              (mkEvs ++ [ev0], Except.error PyErr.paramValidationError)
        else
          let p := downloadItems env bucket output_path ks 0
          (mkEvs ++ ev0 :: p.2,
            Except.ok { success := p.1, file_path := output_path })

/-- Model of download_s3_uri (s3_util.py): an invalid URI fails with an
empty path and no remote call; otherwise the parsed bucket and object
name are passed to the download method. -/
def download_s3_uri (env : DownloadEnv) (s3_uri output_folder : Str) :
    List S3Event × Except PyErr DownloadResult :=
  if !validate_s3_uri s3_uri then
    ([], Except.ok { success := false, file_path := [] })
  else
    let bo := parse_s3_uri s3_uri
    download_file env bo.1 bo.2 output_folder

/-! ## Generic string lemmas -/

theorem splitChar_ne_nil (c : Char) (s : Str) : splitChar c s ≠ [] := by
  induction s with
  | nil => simp [splitChar]
  | cons x xs ih =>
      simp only [splitChar]
      cases h : splitChar c xs with
      | nil => simp
      | cons g gs =>
          by_cases hx : x = c <;> simp [hx]

theorem splitChar_length_ge_two_iff (c : Char) (s : Str) :
    2 ≤ (splitChar c s).length ↔ c ∈ s := by
  induction s with
  | nil => simp [splitChar]
  | cons x xs ih =>
      simp only [splitChar]
      cases h : splitChar c xs with
      | nil => exact absurd h (splitChar_ne_nil c xs)
      | cons g gs =>
          by_cases hx : x = c
          · subst hx
            simp
          · rw [h] at ih
            simp only [if_neg hx, List.length_cons, List.mem_cons]
            simp only [List.length_cons] at ih
            constructor
            · intro hle
              exact Or.inr (ih.mp hle)
            · intro hm
              rcases hm with hm | hm
              · exact absurd hm.symm hx
              · exact ih.mpr hm

theorem splitChar_not_mem (c : Char) (s : Str) :
    ∀ g ∈ splitChar c s, c ∉ g := by
  induction s with
  | nil => simp [splitChar]
  | cons x xs ih =>
      simp only [splitChar]
      cases h : splitChar c xs with
      | nil => exact absurd h (splitChar_ne_nil c xs)
      | cons g gs =>
          have ihg := ih
          rw [h] at ihg
          by_cases hx : x = c
          · simp only [if_pos hx]
            intro g2 hg2
            rcases List.mem_cons.mp hg2 with rfl | hg2
            · simp
            · exact ihg g2 hg2
          · simp only [if_neg hx]
            intro g2 hg2
            rcases List.mem_cons.mp hg2 with rfl | hg2
            · intro hcm
              rcases List.mem_cons.mp hcm with rfl | hcm
              · exact hx rfl
              · exact ihg g (List.mem_cons_self g gs) hcm
            · exact ihg g2 (List.mem_cons_of_mem g hg2)

theorem slash_not_mem_basename (p : Str) : '/' ∉ basename p := by
  unfold basename
  cases hsp : splitChar '/' p with
  | nil => exact absurd hsp (splitChar_ne_nil '/' p)
  | cons g gs =>
      apply splitChar_not_mem '/' p
      rw [hsp]
      have h1 : (g :: gs).getLastD [] = (g :: gs).getLast (by simp) := by
        rw [List.getLastD_eq_getLast?,
          List.getLast?_eq_getLast (g :: gs) (by simp)]
        rfl
      rw [h1]
      exact List.getLast_mem (by simp)

theorem prefix_pjoin (p b : Str) (hb : b.head? ≠ some '/') :
    p <+: pjoin p b := by
  unfold pjoin
  rw [if_neg hb]
  by_cases hp : p = [] ∨ p.getLast? = some '/'
  · rw [if_pos hp]
    exact List.prefix_append p b
  · rw [if_neg hp]
    exact List.prefix_append p ('/' :: b)

theorem prefix_pjoin_basename (p f : Str) : p <+: pjoin p (basename f) := by
  apply prefix_pjoin
  intro h
  have hm : '/' ∈ basename f := by
    cases hb : basename f with
    | nil => rw [hb] at h; simp at h
    | cons x xs =>
        rw [hb] at h
        simp at h
        subst h
        simp
  exact slash_not_mem_basename f hm

/-! ## C6: archiver failure contract -/

/-- C6: for every environment, archive path and member list,
`tar_list_of_files` returns true exactly when the parent directory of the
path exists, the path ends with the fixed `.tar.gz` extension, and the
tar-writing block succeeds; in every other case — missing parent, wrong
extension, or any caught I/O / archiving error — it returns false, and it
never raises (it is a total boolean function). -/
theorem c6_tar_failure_contract (env : ArchiveEnv) (archive_path : Str)
    (file_list : List Str) :
    tar_list_of_files env archive_path file_list = true ↔
      (env.pathExists (parentPath archive_path) = true ∧
        COMPRESSED_TAR_EXTENSION <:+ archive_path ∧
        env.tarOutcome = TarOutcome.ok) := by
  have hlen : (COMPRESSED_TAR_EXTENSION : Str).length = 7 := by decide
  have hsfx : (COMPRESSED_TAR_EXTENSION <:+ archive_path) ↔
      archive_path.drop (archive_path.length - 7) = COMPRESSED_TAR_EXTENSION := by
    rw [List.suffix_iff_eq_drop, hlen]
    exact eq_comm
  unfold tar_list_of_files is_valid_tar_path
  by_cases h1 : env.pathExists (parentPath archive_path) <;>
    by_cases h2 : archive_path.drop (archive_path.length - 7) =
        COMPRESSED_TAR_EXTENSION <;>
      cases ho : env.tarOutcome <;>
        simp [h1, h2, ho, hsfx]

/-! ## C7: URI validation (corrected) -/

/-- C7 counterexample: the claim says `validate_s3_uri` is true exactly
when the string starts with `s3://` and the object name is non-empty; at
the input `s3://bucket/` the function returns true although the parsed
object name is empty, refuting the claim. -/
theorem c7_counterexample :
    ¬ (validate_s3_uri (str "s3://bucket/") = true ↔
        ((str "s3://") <+: str "s3://bucket/" ∧
          (parse_s3_uri (str "s3://bucket/")).2 ≠ [])) := by decide

/-- C7 (amended): `validate_s3_uri` returns true exactly when the string
starts with the literal scheme `s3://` and the remainder contains at
least one `/` separator — the object name after the bucket segment may be
empty (e.g. `s3://bucket/` is accepted).  The three cited
examples hold as stated. -/
theorem c7_uri_validation :
    (∀ s : Str, validate_s3_uri s = true ↔
      ((str "s3://") <+: s ∧ '/' ∈ s.drop 5)) ∧
    validate_s3_uri (str "s3://bucket/obj") = true ∧
    validate_s3_uri (str "ftp://bucket/obj") = false ∧
    validate_s3_uri (str "s3://bucket") = false := by
  refine ⟨fun s => ?_, by decide, by decide, by decide⟩
  have hpfx : ((str "s3://") <+: s) ↔ s.take 5 = str "s3://" := by
    rw [List.prefix_iff_eq_take]
    constructor
    · intro h
      exact h.symm
    · intro h
      exact h.symm
  unfold validate_s3_uri
  by_cases h1 : s.take 5 = str "s3://"
  · rw [if_neg (by simp [h1])]
    by_cases h2 : (splitChar '/' (s.drop 5)).length < 2
    · rw [if_pos h2]
      constructor
      · intro h
        exact absurd h (by simp)
      · intro h
        exfalso
        have := (splitChar_length_ge_two_iff '/' (s.drop 5)).mpr h.2
        omega
    · rw [if_neg h2]
      constructor
      · intro _
        refine ⟨hpfx.mpr h1, ?_⟩
        exact (splitChar_length_ge_two_iff '/' (s.drop 5)).mp (by omega)
      · intro _
        rfl
  · rw [if_pos (by simp [h1])]
    constructor
    · intro h
      exact absurd h (by simp)
    · intro h
      exact absurd (hpfx.mp h.1) h1

/-! ## C5: archive branch of the mapping -/

/-- C5: for every environment, file list, prefix and non-empty archive
path, if the archiver fails then `digest_file_list` raises (modelled as
`Except.error`, aborting the enclosing call), and if the archiver
succeeds it returns exactly the single pair
`(archive_path, prefix/basename(archive_path))`. -/
theorem c5_archive_branch (env : ArchiveEnv)
    (file_list : List (Str × FSNode)) (pfx tar_archive_path : Str)
    (hne : tar_archive_path ≠ []) :
    (tar_list_of_files env tar_archive_path
        (file_list.map (fun e => e.1)) = false →
      digest_file_list env file_list pfx tar_archive_path =
        Except.error (str "Could not digest file list: archive error")) ∧
    (tar_list_of_files env tar_archive_path
        (file_list.map (fun e => e.1)) = true →
      digest_file_list env file_list pfx tar_archive_path =
        Except.ok [(tar_archive_path,
          pjoin pfx (basename tar_archive_path))]) := by
  unfold digest_file_list
  rw [if_pos hne]
  constructor
  · intro h
    rw [h]
    simp
  · intro h
    rw [h]
    simp [generate_asset_id_from_input_file]

/-- C5 witness: at a concrete archive path, a succeeding archiver yields
the singleton pair and a failing archiver yields the error. -/
theorem c5_archive_branch_witness :
    digest_file_list ⟨fun _ => true, TarOutcome.ok⟩ [] (str "p")
        (str "a.tar.gz") =
      Except.ok [(str "a.tar.gz", str "p/a.tar.gz")] ∧
    digest_file_list ⟨fun _ => true, TarOutcome.tarError⟩ [] (str "p")
        (str "a.tar.gz") =
      Except.error (str "Could not digest file list: archive error") := by
  constructor
  · have h := (c5_archive_branch ⟨fun _ => true, TarOutcome.ok⟩ [] (str "p")
      (str "a.tar.gz") (by decide)).2 (by decide)
    rw [h]
    have hb : pjoin (str "p") (basename (str "a.tar.gz")) =
        str "p/a.tar.gz" := by decide
    rw [hb]
  · exact (c5_archive_branch ⟨fun _ => true, TarOutcome.tarError⟩ []
      (str "p") (str "a.tar.gz") (by decide)).1 (by decide)

/-! ## C9: key-prefix invariant -/

theorem digestNoTar_key_has_prefix_fuel :
    ∀ (n : Nat) (lst : List (Str × FSNode)), entsSize lst ≤ n →
      ∀ (pfx : Str) (pr : Str × Str), pr ∈ digestNoTar lst pfx →
        pfx <+: pr.2 := by
  intro n
  induction n with
  | zero =>
      intro lst hle pfx pr hm
      cases lst with
      | nil => rw [digestNoTar_nil] at hm; cases hm
      | cons a rest =>
          exfalso
          obtain ⟨an, nd⟩ := a
          have hpos := nodeSize_pos nd
          simp [entsSize] at hle
          omega
  | succ n ih =>
      intro lst hle pfx pr hm
      match lst with
      | [] => rw [digestNoTar_nil] at hm; cases hm
      | (f, FSNode.file) :: rest =>
          rw [digestNoTar_file] at hm
          simp only [entsSize, nodeSize] at hle
          rcases List.mem_cons.mp hm with h | h
          · subst h
            exact prefix_pjoin_basename pfx f
          · exact ih rest (by omega) pfx pr h
      | (f, FSNode.dir cs) :: rest =>
          rw [digestNoTar_dir] at hm
          simp only [entsSize, nodeSize] at hle
          rcases List.mem_append.mp hm with h | h
          · obtain ⟨l, hl, hm2⟩ := List.mem_flatten.mp h
            obtain ⟨w, hw, rfl⟩ := List.mem_map.mp hl
            have hsz : entsSize (walkChildren w.1 w.2) ≤ n := by
              rw [entsSize_walkChildren]
              have := walkEntries_entsSize_le hw
              omega
            have h2 := ih (walkChildren w.1 w.2) hsz
              (pjoin pfx (basename f)) pr hm2
            exact (prefix_pjoin_basename pfx f).trans h2
          · exact ih rest (by omega) pfx pr h

/-- C9: every (local path, remote key) pair produced by
`digest_file_list` — through the archive branch or the recursive walk —
has a remote key that begins with the caller-supplied prefix. -/
theorem c9_key_prefix_invariant (env : ArchiveEnv)
    (file_list : List (Str × FSNode)) (pfx tar_archive_path : Str)
    (pairs : List (Str × Str))
    (hok : digest_file_list env file_list pfx tar_archive_path =
      Except.ok pairs) :
    ∀ pr ∈ pairs, pfx <+: pr.2 := by
  intro pr hm
  unfold digest_file_list at hok
  by_cases ht : tar_archive_path ≠ []
  · rw [if_pos ht] at hok
    by_cases htar : tar_list_of_files env tar_archive_path
        (file_list.map (fun e => e.1)) = true
    · rw [if_pos htar] at hok
      injection hok with hok
      subst hok
      rcases List.mem_cons.mp hm with h | h
      · subst h
        simp only [generate_asset_id_from_input_file]
        exact prefix_pjoin_basename pfx tar_archive_path
      · cases h
    · rw [if_neg htar] at hok
      cases hok
  · rw [if_neg ht] at hok
    injection hok with hok
    subst hok
    exact digestNoTar_key_has_prefix_fuel (entsSize file_list) file_list
      le_rfl pfx pr hm

/-- C9 witness: a concrete digest of one regular file yields a key that
the prefix is a prefix of. -/
theorem c9_key_prefix_invariant_witness :
    (str "p") <+: (str "p/f") := by
  have hd : digest_file_list ⟨fun _ => true, TarOutcome.ok⟩
      [(str "f", FSNode.file)] (str "p") [] =
      Except.ok [(str "f", str "p/f")] := by
    unfold digest_file_list
    rw [if_neg (by decide)]
    rw [digestNoTar_file, digestNoTar_nil]
    exact congrArg Except.ok (by decide)
  exact c9_key_prefix_invariant ⟨fun _ => true, TarOutcome.ok⟩
    [(str "f", FSNode.file)] (str "p") [] [(str "f", str "p/f")] hd
    (str "f", str "p/f") (by decide)

/-! ## C3: mapping without archive path (nested directories) -/

/-- C3: at the failing input — a file list holding one directory `d` that
contains a file `a` and a sub-directory `s` with a file `b` — the mapping
emits the nested file `d/s/b` twice, once with the structure-preserving
key `p/d/s/b` and once with the key `p/d/b` whose `s` infix is lost,
instead of exactly once as the claim (and the own doc string of the function,
"Directory structure is maintained as infix") states. -/
theorem c3_nested_directory_bug :
    digest_file_list ⟨fun _ => true, TarOutcome.ok⟩
      [(str "d", FSNode.dir [(str "a", FSNode.file),
        (str "s", FSNode.dir [(str "b", FSNode.file)])])] (str "p") [] =
      Except.ok [(str "d/s/b", str "p/d/s/b"), (str "d/a", str "p/d/a"),
        (str "d/s/b", str "p/d/b")] ∧
    (([(str "d/s/b", str "p/d/s/b"), (str "d/a", str "p/d/a"),
        (str "d/s/b", str "p/d/b")].map Prod.fst).count (str "d/s/b")) =
      2 := by
  constructor
  · unfold digest_file_list
    rw [if_neg (by decide)]
    exact congrArg Except.ok digestNoTar_nested_example
  · decide

/-! ## C1: fail-fast upload -/

/-- Whether an event is an attempted upload call. -/
def isPutEvent : S3Event → Bool
  | S3Event.putCall _ _ _ => true
  | _ => false

theorem uploadLoop_all_ok (putOk : Nat → Bool) (bucket : Str) :
    ∀ (l : List (Str × Str)) (n : Nat),
      (∀ i, i < l.length → putOk (n + i) = true) →
      uploadLoop putOk bucket l n =
        (true, l.map (fun pr => S3Event.putCall bucket pr.1 pr.2)) := by
  intro l
  induction l with
  | nil => intro n _; rfl
  | cons a rest ih =>
      obtain ⟨f, k⟩ := a
      intro n h
      have h0 : putOk n = true := by
        have := h 0 (by simp)
        simpa using this
      have hrec := ih (n + 1) (fun i hi => by
        have hx := h (i + 1) (by simpa using Nat.succ_lt_succ hi)
        have h2 : n + 1 + i = n + (i + 1) := by omega
        rw [h2]
        exact hx)
      simp [uploadLoop, h0, hrec]

theorem uploadLoop_first_fail (putOk : Nat → Bool) (bucket : Str) :
    ∀ (l : List (Str × Str)) (n i : Nat), i < l.length →
      (∀ j, j < i → putOk (n + j) = true) → putOk (n + i) = false →
      uploadLoop putOk bucket l n =
        (false,
          (l.take (i + 1)).map
            (fun pr => S3Event.putCall bucket pr.1 pr.2)) := by
  intro l
  induction l with
  | nil => intro n i hi; simp at hi
  | cons a rest ih =>
      obtain ⟨f, k⟩ := a
      intro n i hi hall hfail
      cases i with
      | zero =>
          have h0 : putOk n = false := by simpa using hfail
          simp [uploadLoop, h0]
      | succ i =>
          have h0 : putOk n = true := by
            have := hall 0 (Nat.succ_pos i)
            simpa using this
          have hrec := ih (n + 1) i
            (by simpa using Nat.lt_of_succ_lt_succ hi)
            (fun j hj => by
              have hx := hall (j + 1) (Nat.succ_lt_succ hj)
              have h2 : n + 1 + j = n + (j + 1) := by omega
              rw [h2]
              exact hx)
            (by
              have h2 : n + 1 + i = n + (i + 1) := by omega
              rw [h2]
              exact hfail)
          simp [uploadLoop, h0, hrec]

theorem clearPages_no_put (bucket pfx : Str) :
    ∀ (rest : List S3ListResponse) (r : S3ListResponse),
      (clearPages bucket pfx r rest).1.filter isPutEvent = [] := by
  intro rest
  induction rest with
  | nil =>
      intro r
      unfold clearPages
      cases hc : r.contents with
      | none => simp [isPutEvent]
      | some ks =>
          by_cases ht : r.isTruncated
          · cases hl : ks.getLast? <;> simp [ht, hl, isPutEvent]
          · simp [ht, isPutEvent]
  | cons next more ih =>
      intro r
      unfold clearPages
      cases hc : r.contents with
      | none => simp [isPutEvent]
      | some ks =>
          by_cases ht : r.isTruncated
          · cases hl : ks.getLast? <;> simp [ht, hl, isPutEvent, ih next]
          · simp [ht, isPutEvent]

theorem clear_prefix_no_put (pages : List S3ListResponse)
    (bucket pfx : Str) :
    ( clear_prefix pages bucket pfx).1.filter isPutEvent = [] := by
  simp only [ clear_prefix]
  cases hc : (pages.headD emptyListing).contents with
  | none => simp [isPutEvent]
  | some ks =>
      by_cases hl : ks.length > 0
      · simp only [hl, if_pos]
        cases hp : (clearPages bucket pfx
            (pages.headD emptyListing) (pages.drop 1)).2 with
        | error e =>
            simp [hp, isPutEvent, clearPages_no_put]
        | ok keys =>
            simp [hp, isPutEvent, List.filter_append, clearPages_no_put]
      · simp [hl, isPutEvent]

theorem uploadLoop_events_put (putOk : Nat → Bool) (bucket : Str) :
    ∀ (l : List (Str × Str)) (n : Nat),
      (uploadLoop putOk bucket l n).2.filter isPutEvent =
        (uploadLoop putOk bucket l n).2 := by
  intro l
  induction l with
  | nil => intro n; rfl
  | cons a rest ih =>
      obtain ⟨f, k⟩ := a
      intro n
      by_cases h : putOk n <;> simp [uploadLoop, h, isPutEvent, ih]

/-- C1: whenever the clear step completes and the digest yields `pairs`,
`transfer_to_s3` attempts the uploads of the pairs in order: when every
upload succeeds it returns true and the attempted put calls are exactly
one per pair, in order; when the first failing upload has index i it
returns false having attempted exactly the first i + 1 put calls, never
touching later pairs; and the result is true exactly when every upload
succeeded. -/
theorem c1_fail_fast_upload (pages : List S3ListResponse)
    (putOk : Nat → Bool) (env : ArchiveEnv) (bucket pfx : Str)
    (file_list : List (Str × FSNode)) (tar_archive_path : Str)
    (pairs : List (Str × Str))
    (hclear : ( clear_prefix pages bucket pfx).2 = Except.ok ())
    (hd : digest_file_list env file_list pfx tar_archive_path =
      Except.ok pairs) :
    ((∀ i, i < pairs.length → putOk i = true) →
      (transfer_to_s3 pages putOk env bucket pfx file_list
          tar_archive_path).2 = Except.ok true ∧
      (transfer_to_s3 pages putOk env bucket pfx file_list
          tar_archive_path).1.filter isPutEvent =
        pairs.map (fun pr => S3Event.putCall bucket pr.1 pr.2)) ∧
    (∀ i, i < pairs.length → (∀ j, j < i → putOk j = true) →
      putOk i = false →
      (transfer_to_s3 pages putOk env bucket pfx file_list
          tar_archive_path).2 = Except.ok false ∧
      (transfer_to_s3 pages putOk env bucket pfx file_list
          tar_archive_path).1.filter isPutEvent =
        (pairs.take (i + 1)).map
          (fun pr => S3Event.putCall bucket pr.1 pr.2)) ∧
    ((transfer_to_s3 pages putOk env bucket pfx file_list
        tar_archive_path).2 = Except.ok true ↔
      ∀ i, i < pairs.length → putOk i = true) := by
  have hev : ∀ res : Bool × List S3Event,
      uploadLoop putOk bucket pairs 0 = res →
      (transfer_to_s3 pages putOk env bucket pfx file_list
          tar_archive_path) =
        (( clear_prefix pages bucket pfx).1 ++ res.2, Except.ok res.1) := by
    intro res hres
    simp only [transfer_to_s3]
    rw [hclear, hd]
    simp [hres]
  refine ⟨?_, ?_, ?_⟩
  · intro hall
    have hup := uploadLoop_all_ok putOk bucket pairs 0
      (fun i hi => by simpa using hall i hi)
    rw [hev _ hup]
    constructor
    · rfl
    · simp only [List.filter_append, clear_prefix_no_put, List.nil_append]
      have := uploadLoop_events_put putOk bucket pairs 0
      rw [hup] at this
      exact this
  · intro i hi hbelow hfail
    have hup := uploadLoop_first_fail putOk bucket pairs 0 i hi
      (fun j hj => by simpa using hbelow j hj) (by simpa using hfail)
    rw [hev _ hup]
    constructor
    · rfl
    · simp only [List.filter_append, clear_prefix_no_put, List.nil_append]
      have := uploadLoop_events_put putOk bucket pairs 0
      rw [hup] at this
      exact this
  · constructor
    · intro htrue
      by_contra hnot
      push_neg at hnot
      obtain ⟨i0, hi0, hfail0⟩ := hnot
      have hex : ∃ i, i < pairs.length ∧ putOk i = false := by
        exact ⟨i0, hi0, by simpa using hfail0⟩
      classical
      let P : Nat → Prop := fun i => i < pairs.length ∧ putOk i = false
      have hexP : ∃ i, P i := hex
      obtain ⟨hlt, hfail⟩ := Nat.find_spec hexP
      have hbelow : ∀ j, j < Nat.find hexP → putOk j = true := by
        intro j hj
        by_cases hjlen : j < pairs.length
        · by_cases hp : putOk j = true
          · exact hp
          · exact absurd ⟨hjlen, by simpa using hp⟩ (Nat.find_min hexP hj)
        · omega
      have := uploadLoop_first_fail putOk bucket pairs 0 (Nat.find hexP)
        hlt (fun j hj => by simpa using hbelow j hj) (by simpa using hfail)
      rw [hev _ this] at htrue
      simp at htrue
    · intro hall
      have hup := uploadLoop_all_ok putOk bucket pairs 0
        (fun i hi => by simpa using hall i hi)
      rw [hev _ hup]

/-- C1 witness: against a store whose listing holds one old key (so the
clear step completes by deleting it), with three mapped files and an
oracle whose second upload fails, the transfer returns false and exactly
two put calls are attempted. -/
theorem c1_fail_fast_upload_witness :
    (transfer_to_s3 [⟨some [str "old"], false, 1⟩] (fun n => !(n == 1))
        ⟨fun _ => true, TarOutcome.ok⟩
        (str "B") (str "p") [(str "a", FSNode.file), (str "b", FSNode.file),
          (str "c", FSNode.file)] []).2 = Except.ok false ∧
    ((transfer_to_s3 [⟨some [str "old"], false, 1⟩] (fun n => !(n == 1))
        ⟨fun _ => true, TarOutcome.ok⟩
        (str "B") (str "p") [(str "a", FSNode.file), (str "b", FSNode.file),
          (str "c", FSNode.file)] []).1.filter isPutEvent).length = 2 := by
  have hd : digest_file_list ⟨fun _ => true, TarOutcome.ok⟩
      [(str "a", FSNode.file), (str "b", FSNode.file),
        (str "c", FSNode.file)] (str "p") [] =
      Except.ok [(str "a", str "p/a"), (str "b", str "p/b"),
        (str "c", str "p/c")] := by
    unfold digest_file_list
    rw [if_neg (by decide)]
    rw [digestNoTar_file, digestNoTar_file, digestNoTar_file,
      digestNoTar_nil]
    exact congrArg Except.ok (by decide)
  have h := (c1_fail_fast_upload
    [⟨some [str "old"], false, 1⟩]
    (fun n => !(n == 1))
    ⟨fun _ => true, TarOutcome.ok⟩ (str "B") (str "p")
    [(str "a", FSNode.file), (str "b", FSNode.file), (str "c", FSNode.file)]
    [] [(str "a", str "p/a"), (str "b", str "p/b"), (str "c", str "p/c")]
    (by rfl) hd).2.1 1 (by decide)
    (fun j hj => by
      have : j = 0 := by omega
      subst this
      decide)
    (by decide)
  refine ⟨h.1, ?_⟩
  rw [h.2]
  decide

/-! ## C4: clear step with zero keys -/

/-- C4: at a bucket and prefix under which no keys exist, the listing
response omits the Contents key, so the subscript at s3_util.py:186
raises KeyError instead of letting the clear step complete: the recorded
trace holds the single listing call — no delete, but also no completion
— and the enclosing transfer aborts with the exception before the
mapping and upload phases, never reaching a put. -/
theorem c4_zero_key_clear_raises :
    clear_prefix [emptyListing] (str "B") (str "p") =
      ([S3Event.listCall (str "B") (str "p") none],
        Except.error (PyErr.keyError (str "Contents"))) ∧
    transfer_to_s3 [emptyListing] (fun _ => true)
        ⟨fun _ => true, TarOutcome.ok⟩
        (str "B") (str "p") [(str "f", FSNode.file)] [] =
      ([S3Event.listCall (str "B") (str "p") none],
        Except.error (PyErr.keyError (str "Contents"))) := ⟨rfl, rfl⟩

/-! ## C2, C8, C10: download orchestration -/

/-- Whether an event is an attempted object download. -/
def isGetEvent : S3Event → Bool
  | S3Event.getCall _ _ _ => true
  | _ => false

theorem downloadItems_filter_get (env : DownloadEnv)
    (bucket output_path : Str) :
    ∀ (keys : List Str) (n : Nat),
      (downloadItems env bucket output_path keys n).2.filter isGetEvent =
        keys.map (fun k =>
          S3Event.getCall bucket k (downloadTarget output_path k)) := by
  intro keys
  induction keys with
  | nil => intro n; rfl
  | cons key rest ih =>
      intro n
      by_cases h : env.pathExists (downloadLocation output_path key) <;>
        simp [downloadItems, h, isGetEvent, ih]

theorem downloadItems_success_iff (env : DownloadEnv)
    (bucket output_path : Str) :
    ∀ (keys : List Str) (n : Nat),
      ((downloadItems env bucket output_path keys n).1 = true ↔
        ∀ i, i < keys.length → env.getOk (n + i) = true) := by
  intro keys
  induction keys with
  | nil => intro n; simp [downloadItems]
  | cons key rest ih =>
      intro n
      simp only [downloadItems, Bool.and_eq_true, List.length_cons]
      rw [ih (n + 1)]
      constructor
      · intro h i hi
        cases i with
        | zero => simpa using h.1
        | succ i =>
            have := h.2 i (by omega)
            have h2 : n + 1 + i = n + (i + 1) := by omega
            rwa [h2] at this
      · intro h
        refine ⟨by simpa using h 0 (by omega), fun i hi => ?_⟩
        have := h (i + 1) (by omega)
        have h2 : n + 1 + i = n + (i + 1) := by omega
        rwa [h2]

theorem downloadItems_success_pathExists (env : DownloadEnv)
    (g : Str → Bool) (bucket output_path : Str) :
    ∀ (keys : List Str) (n : Nat),
      (downloadItems { env with pathExists := g } bucket output_path
        keys n).1 =
      (downloadItems env bucket output_path keys n).1 := by
  intro keys
  induction keys with
  | nil => intro n; rfl
  | cons key rest ih =>
      intro n
      simp only [downloadItems]
      rw [ih (n + 1)]

/-- In a prefix retrieval whose first listing response reports a nonzero
KeyCount, carries the keys, and is not truncated — the only listing
shape that reaches the per-key loop, since a truncated page makes the
continuation call raise — the filtered get events are exactly one per
key, in order, targeting the path rebuilt under the output path, and the
call returns a DownloadResult whose success flag aggregates the
per-object outcomes. -/
theorem download_file_spec (env : DownloadEnv)
    (bucket object_name output_folder : Str) (keys : List Str)
    (hnt : ¬ str "tar.gz" <:+: object_name)
    (hkc : (env.pages.headD emptyListing).keyCount ≠ 0)
    (hcon : (env.pages.headD emptyListing).contents = some keys)
    (htr : (env.pages.headD emptyListing).isTruncated = false) :
    (download_file env bucket object_name output_folder).1.filter
        isGetEvent =
      keys.map (fun k => S3Event.getCall bucket k
        (downloadTarget (pjoin output_folder (basename object_name)) k)) ∧
    (download_file env bucket object_name output_folder).2 =
      Except.ok
        { success := (downloadItems env bucket
            (pjoin output_folder (basename object_name)) keys 0).1,
          file_path := pjoin output_folder (basename object_name) } ∧
    ((downloadItems env bucket
        (pjoin output_folder (basename object_name)) keys 0).1 = true ↔
      ∀ i, i < keys.length → env.getOk i = true) := by
  have hdf : download_file env bucket object_name output_folder =
      ((if env.pathExists output_folder then []
          else [S3Event.makeDirs output_folder]) ++
        S3Event.listCall bucket object_name none ::
          (downloadItems env bucket
            (pjoin output_folder (basename object_name)) keys 0).2,
        Except.ok
          { success := (downloadItems env bucket
              (pjoin output_folder (basename object_name)) keys 0).1,
            file_path := pjoin output_folder (basename object_name) })
      := by
    simp only [download_file]
    rw [if_neg hnt, if_neg hkc, hcon, htr]
    simp
  refine ⟨?_, ?_, ?_⟩
  · rw [hdf]
    simp only [List.filter_append, List.filter_cons]
    have hmk : (if env.pathExists output_folder then ([] : List S3Event)
        else [S3Event.makeDirs output_folder]).filter isGetEvent = [] := by
      by_cases h : env.pathExists output_folder <;> simp [h, isGetEvent]
    rw [hmk]
    simp only [isGetEvent]
    rw [downloadItems_filter_get]
    simp
  · rw [hdf]
  · simpa using downloadItems_success_iff env bucket
      (pjoin output_folder (basename object_name)) keys 0

/-- C2 counterexample: at a non-empty but truncated listing — here one
page carrying one key with the truncation flag set — the retrieval
raises ParamValidationError at the continuation call (Marker is not a
list_objects_v2 parameter, and the call sits outside the try), attempts
no download at all, and returns no DownloadResult; this refutes the
claim as stated for every retrieval over a non-empty key listing. -/
theorem c2_truncated_listing_counterexample :
    (download_file ⟨fun _ => true, [⟨some [str "t/x/a"], true, 1⟩],
        fun _ => true⟩ (str "B") (str "t/x") (str "o")).2 =
      Except.error PyErr.paramValidationError ∧
    (download_file ⟨fun _ => true, [⟨some [str "t/x/a"], true, 1⟩],
        fun _ => true⟩ (str "B") (str "t/x") (str "o")).1.filter
      isGetEvent = [] := ⟨rfl, rfl⟩

/-- C2 (amended): in a prefix retrieval over a non-empty key listing
that the store returns in a single untruncated page, every gathered key
has its download attempted — the attempted get calls are exactly one per
key, in listing order, regardless of individual failures — and the
returned DownloadResult has success true exactly when every individual
download succeeded (the logical AND across the per-object outcomes); on
a truncated listing the broken continuation call raises before any key
is attempted. -/
theorem c2_fail_continue_download (env : DownloadEnv)
    (bucket object_name output_folder : Str) (keys : List Str)
    (hnt : ¬ str "tar.gz" <:+: object_name)
    (hkc : (env.pages.headD emptyListing).keyCount ≠ 0)
    (hcon : (env.pages.headD emptyListing).contents = some keys)
    (htr : (env.pages.headD emptyListing).isTruncated = false) :
    (download_file env bucket object_name output_folder).1.filter
        isGetEvent =
      keys.map (fun k => S3Event.getCall bucket k
        (downloadTarget (pjoin output_folder (basename object_name)) k)) ∧
    ∃ r : DownloadResult,
      (download_file env bucket object_name output_folder).2 =
        Except.ok r ∧
      (r.success = true ↔
        ∀ i, i < keys.length → env.getOk i = true) := by
  obtain ⟨h1, h2, h3⟩ := download_file_spec env bucket object_name
    output_folder keys hnt hkc hcon htr
  exact ⟨h1, ⟨_, h2, h3⟩⟩

/-- C2 witness: a single untruncated page with three keys and an oracle
whose second get fails — all three gets are attempted and the returned
DownloadResult has success false. -/
theorem c2_fail_continue_download_witness :
    ((download_file ⟨fun _ => true,
        [⟨some [str "t/x/a", str "t/x/b", str "t/x/c"], false, 3⟩],
        fun n => !(n == 1)⟩
      (str "B") (str "t/x") (str "o")).1.filter isGetEvent).length = 3 ∧
    ∃ r : DownloadResult,
      (download_file ⟨fun _ => true,
          [⟨some [str "t/x/a", str "t/x/b", str "t/x/c"], false, 3⟩],
          fun n => !(n == 1)⟩
        (str "B") (str "t/x") (str "o")).2 = Except.ok r ∧
      r.success = false := by
  have h := c2_fail_continue_download ⟨fun _ => true,
      [⟨some [str "t/x/a", str "t/x/b", str "t/x/c"], false, 3⟩],
      fun n => !(n == 1)⟩
    (str "B") (str "t/x") (str "o")
    [str "t/x/a", str "t/x/b", str "t/x/c"]
    (by decide) (by decide) (by decide) (by decide)
  refine ⟨by rw [h.1]; decide, ?_⟩
  obtain ⟨r, hr, hiff⟩ := h.2
  refine ⟨r, hr, ?_⟩
  cases hs : r.success with
  | false => rfl
  | true =>
      have hall := hiff.mp hs
      have := hall 1 (by decide)
      simp at this

/-- C8 counterexample: for the key `t/x/k/f` listed under the prefix
`t/x` with output folder `out`, the code downloads to `out/x/k/f` —
rooted at `output_path = output_folder/basename(object_name)` — whereas
the reading of the claim (discard the first two key segments and rebuild
directly under `output_folder`) gives `out/k/f`; the two differ. -/
theorem c8_counterexample :
    (download_file ⟨fun _ => true, [⟨some [str "t/x/k/f"], false, 1⟩],
        fun _ => true⟩
      (str "B") (str "t/x") (str "out")).1.filter isGetEvent =
      [S3Event.getCall (str "B") (str "t/x/k/f") (str "out/x/k/f")] ∧
    downloadTarget (str "out") (str "t/x/k/f") = str "out/k/f" ∧
    (str "out/x/k/f") ≠ str "out/k/f" := by decide

/-- C8 (amended): for every key downloaded during a prefix retrieval,
the local path is obtained under
`output_path = output_folder/basename(object_name)` — not under
`output_folder` itself — by discarding the first two path segments of the
key and keeping the remaining segments as subdirectories, with the final
segment as the filename. -/
theorem c8_local_path_reconstruction (env : DownloadEnv)
    (bucket object_name output_folder : Str) (keys : List Str)
    (hnt : ¬ str "tar.gz" <:+: object_name)
    (hkc : (env.pages.headD emptyListing).keyCount ≠ 0)
    (hcon : (env.pages.headD emptyListing).contents = some keys)
    (htr : (env.pages.headD emptyListing).isTruncated = false) :
    (download_file env bucket object_name output_folder).1.filter
        isGetEvent =
      keys.map (fun k => S3Event.getCall bucket k
        (pjoin (List.foldl pjoin
            (pjoin output_folder (basename object_name))
            ((splitChar '/' k).drop 2).dropLast)
          ((splitChar '/' k).getLastD []))) := by
  have h := (download_file_spec env bucket object_name
    output_folder keys hnt hkc hcon htr).1
  rw [h]
  rfl

/-- C8 witness: at a concrete two-key store returned in one untruncated
page the get targets are rebuilt under
`output_folder/basename(object_name)` with the first two key segments
discarded. -/
theorem c8_local_path_reconstruction_witness :
    (download_file ⟨fun _ => true,
        [⟨some [str "t/y/k/f", str "t/y/g"], false, 2⟩], fun _ => true⟩
      (str "B") (str "t/y") (str "out")).1.filter isGetEvent =
      [S3Event.getCall (str "B") (str "t/y/k/f") (str "out/y/k/f"),
       S3Event.getCall (str "B") (str "t/y/g") (str "out/y/g")] := by
  have h := c8_local_path_reconstruction ⟨fun _ => true,
      [⟨some [str "t/y/k/f", str "t/y/g"], false, 2⟩], fun _ => true⟩
    (str "B") (str "t/y") (str "out") [str "t/y/k/f", str "t/y/g"]
    (by decide) (by decide) (by decide) (by decide)
  rw [h]
  decide

/-- C10: when the output folder does not exist, the very first recorded
action of `download_file` is `os.makedirs(output_folder)` (which creates
intermediate directories), before any download attempt and before any
raise of the later listing phase; the returned outcome — the
DownloadResult, or the escaping exception — never depends on the
`os.path.exists` answers, so a missing output folder by itself cannot
fail the retrieval; the same holds through `download_s3_uri` for any
valid URI; by contrast the archive-path validation fails outright when
the parent directory of the archive is missing. -/
theorem c10_output_folder_created (env : DownloadEnv)
    (bucket object_name output_folder : Str)
    (h : env.pathExists output_folder = false) :
    ((download_file env bucket object_name output_folder).1.head? =
      some (S3Event.makeDirs output_folder)) ∧
    (∀ g : Str → Bool,
      (download_file { env with pathExists := g } bucket object_name
        output_folder).2 =
      (download_file env bucket object_name output_folder).2) ∧
    (∀ s3_uri : Str, validate_s3_uri s3_uri = true →
      (download_s3_uri env s3_uri output_folder).1.head? =
        some (S3Event.makeDirs output_folder)) ∧
    (∀ (aenv : ArchiveEnv) (archive_path : Str),
      aenv.pathExists (parentPath archive_path) = false →
      is_valid_tar_path aenv archive_path = false) := by
  have hhead : ∀ (b obj : Str),
      (download_file env b obj output_folder).1.head? =
        some (S3Event.makeDirs output_folder) := by
    intro b obj
    simp only [download_file, h]
    by_cases h1 : str "tar.gz" <:+: obj
    · rw [if_pos h1]
      simp
    · rw [if_neg h1]
      generalize env.pages.headD emptyListing = r0
      by_cases h2 : r0.keyCount = 0
      · rw [if_pos h2]
        simp
      · rw [if_neg h2]
        cases hc : r0.contents with
        | none => simp
        | some ks =>
            by_cases h3 : r0.isTruncated
            · cases hl : ks.getLast? <;> simp [h3, hl]
            · simp [h3]
  refine ⟨hhead bucket object_name, ?_, ?_, ?_⟩
  · intro g
    dsimp only [download_file]
    by_cases h1 : str "tar.gz" <:+: object_name
    · simp [h1]
    · rw [if_neg h1, if_neg h1]
      generalize env.pages.headD emptyListing = r0
      by_cases h2 : r0.keyCount = 0
      · simp [h2]
      · rw [if_neg h2, if_neg h2]
        cases hc : r0.contents with
        | none => simp
        | some ks =>
            by_cases h3 : r0.isTruncated
            · cases hl : ks.getLast? <;>
                simp [h3, hl]
            · simp [h3, downloadItems_success_pathExists]
  · intro s3_uri hv
    unfold download_s3_uri
    rw [hv]
    simp only [Bool.not_true, Bool.false_eq_true, if_false]
    exact hhead (parse_s3_uri s3_uri).1 (parse_s3_uri s3_uri).2
  · intro aenv archive_path hpar
    unfold is_valid_tar_path
    rw [hpar]
    simp

/-- C10 witness: with a missing output folder the first action is
creating it, and a valid URI routes through the same behaviour. -/
theorem c10_output_folder_created_witness :
    (download_file ⟨fun _ => false, [⟨some [str "t/x/a"], false, 1⟩],
        fun _ => true⟩
      (str "B") (str "t/x") (str "o")).1.head? =
      some (S3Event.makeDirs (str "o")) ∧
    (download_s3_uri ⟨fun _ => false, [⟨some [str "t/x/a"], false, 1⟩],
        fun _ => true⟩
      (str "s3://B/t/x") (str "o")).1.head? =
      some (S3Event.makeDirs (str "o")) := by
  have h := c10_output_folder_created ⟨fun _ => false,
      [⟨some [str "t/x/a"], false, 1⟩], fun _ => true⟩
    (str "B") (str "t/x") (str "o") (by decide)
  exact ⟨h.1, h.2.2.1 (str "s3://B/t/x") (by decide)⟩
